import Mathlib

/-!
Shallow embedding of the yatumas Turing-machine simulator
(machine data model, definition/input parser, tape, execution engine)
and verification of the specification claims against it.

Modelling conventions:
* Python strings are modelled as Lean `String` / `List Char`.
* The source compiles its regexes over `str` without `re.ASCII`, so the
  character classes are Unicode-aware.  `\s` (Python's whitespace set, a
  fixed list of 29 characters) and `\d` (the Unicode decimal digits,
  category Nd) are modelled exactly, by enumeration of their characters
  and code-point ranges.  `\w` (underscore plus Python's alphanumerics)
  also matches non-ASCII letters and non-decimal numerics that cannot
  reasonably be enumerated here; `isWordChar` agrees with `\w` on ASCII,
  on the decimal digits and on the whitespace set, `modelledChar` names
  that fragment, and the theorems whose truth depends on `\w` restrict
  the lines they quantify over to it.
* Python exceptions become `Except` / `Option` results.  An uncaught
  `IndexError` (list index out of range) is a distinguished error value.
* The crucial aliasing fact of the source is modelled faithfully:
  `Tape.__init__` stores the `machine_input` list WITHOUT copying it
  (`self._positive = machine_input`), and `Model.reset` rebuilds the tape
  via `Tape(self.machine_input)`, so `Model.machine_input` and
  `Model.tape._positive` are the same mutable list object for the whole
  lifetime of a model.  We therefore represent both by the single field
  `tape._positive`; every in-place mutation of the tape's positive half is
  a mutation of `machine_input` and vice versa.
-/

namespace Yatumas

/-- Machine state: a plain string token (`State = NewType("State", str)`). -/
abbrev State := String

/-- Tape symbol: the Python `Symbol` dataclass wraps a single character. -/
abbrev Symbol := Char

/-- The distinguished blank symbol (`EmptySymbol = Symbol("_")`). -/
def EmptySymbol : Symbol := '_'

/-- Head movement after a transition (`Action` enum). -/
inductive Action where
  | NONE
  | LEFT
  | RIGHT
deriving DecidableEq, Repr

/-- Numeric payload of an `Action`: the signed head displacement. -/
def Action.value : Action → Int
  | .NONE => 0
  | .LEFT => -1
  | .RIGHT => 1

/-- Lookup key of the transition table (`Condition` dataclass). -/
structure Condition where
  state : State
  symbol : Symbol
deriving DecidableEq, Repr

/-- Outcome of a transition (`Effect` dataclass). -/
structure Effect where
  new_state : State
  new_symbol : Symbol
  action : Action
deriving DecidableEq, Repr

/-- A condition/effect pair (`Transition` dataclass). -/
structure Transition where
  condition : Condition
  effect : Effect
deriving DecidableEq, Repr

/-- The transition table: a `dict[Condition, Effect]`, modelled as an
association list in insertion order (the parser rejects duplicate keys,
so first-match lookup agrees with dict lookup). -/
abbrev TransitionTable := List (Condition × Effect)

/-- Dict lookup `transition_table.get(condition, None)`. -/
def tableLookup : TransitionTable → Condition → Option Effect
  | [], _ => none
  | (c, e) :: rest, c₀ => if c = c₀ then some e else tableLookup rest c₀

/-- A full Turing machine definition (`Machine` dataclass). -/
structure Machine where
  initial_state : State
  transition_table : TransitionTable
deriving DecidableEq, Repr

/-! ## Parser character classes -/

/-- The characters Python's `\s` (equivalently `str.isspace`) matches:
the ASCII controls 0x09-0x0D and 0x1C-0x1F, the space, NEL, NBSP,
Ogham space mark, the 0x2000-0x200A spaces, line/paragraph separator,
narrow no-break space, medium mathematical space and ideographic
space. -/
def pythonWhitespace : List Char :=
  ['\x09', '\x0A', '\x0B', '\x0C', '\x0D', '\x1C', '\x1D', '\x1E', '\x1F',
   '\x20', '\x85', '\u00A0', '\u1680', '\u2000', '\u2001', '\u2002',
   '\u2003', '\u2004', '\u2005', '\u2006', '\u2007', '\u2008', '\u2009',
   '\u200A', '\u2028', '\u2029', '\u202F', '\u205F', '\u3000']

/-- The class `\s` of `SPACE = r"\s*"`. -/
def isPySpace (c : Char) : Bool := decide (c ∈ pythonWhitespace)

/-- The code-point ranges of the Unicode decimal digits (category Nd),
which is exactly what Python's `\d` matches on `str` patterns. -/
def ndRanges : List (Nat × Nat) :=
  [(0x30, 0x39), (0x660, 0x669), (0x6F0, 0x6F9), (0x7C0, 0x7C9),
   (0x966, 0x96F), (0x9E6, 0x9EF), (0xA66, 0xA6F), (0xAE6, 0xAEF),
   (0xB66, 0xB6F), (0xBE6, 0xBEF), (0xC66, 0xC6F), (0xCE6, 0xCEF),
   (0xD66, 0xD6F), (0xDE6, 0xDEF), (0xE50, 0xE59), (0xED0, 0xED9),
   (0xF20, 0xF29), (0x1040, 0x1049), (0x1090, 0x1099), (0x17E0, 0x17E9),
   (0x1810, 0x1819), (0x1946, 0x194F), (0x19D0, 0x19D9), (0x1A80, 0x1A89),
   (0x1A90, 0x1A99), (0x1B50, 0x1B59), (0x1BB0, 0x1BB9), (0x1C40, 0x1C49),
   (0x1C50, 0x1C59), (0xA620, 0xA629), (0xA8D0, 0xA8D9), (0xA900, 0xA909),
   (0xA9D0, 0xA9D9), (0xA9F0, 0xA9F9), (0xAA50, 0xAA59), (0xABF0, 0xABF9),
   (0xFF10, 0xFF19), (0x104A0, 0x104A9), (0x10D30, 0x10D39),
   (0x11066, 0x1106F), (0x110F0, 0x110F9), (0x11136, 0x1113F),
   (0x111D0, 0x111D9), (0x112F0, 0x112F9), (0x11450, 0x11459),
   (0x114D0, 0x114D9), (0x11650, 0x11659), (0x116C0, 0x116C9),
   (0x11730, 0x11739), (0x118E0, 0x118E9), (0x11950, 0x11959),
   (0x11C50, 0x11C59), (0x11D50, 0x11D59), (0x11DA0, 0x11DA9),
   (0x16A60, 0x16A69), (0x16AC0, 0x16AC9), (0x16B50, 0x16B59),
   (0x1D7CE, 0x1D7FF), (0x1E140, 0x1E149), (0x1E2F0, 0x1E2F9),
   (0x1E950, 0x1E959), (0x1FBF0, 0x1FBF9)]

/-- The class `\d`: any Unicode decimal digit. -/
def isPyDigit (c : Char) : Bool :=
  ndRanges.any (fun p => p.1 ≤ c.toNat && c.toNat ≤ p.2)

/-- The class `\w` of `STATE = r"\w+"`: underscore plus Python's
alphanumerics.  Exact on ASCII, on the decimal digits and on the
whitespace set; Python's `\w` additionally matches non-ASCII letters
and non-decimal numerics, which lie outside `modelledChar`. -/
def isWordChar (c : Char) : Bool := c.isAlphanum || c = '_' || isPyDigit c

/-- The class `SYMBOL = r"[_*\d]"`. -/
def isSymbolChar (c : Char) : Bool := c = '_' || c = '*' || isPyDigit c

/-- The character fragment on which every embedded class provably
coincides with the source's regex classes: ASCII, the Unicode decimal
digits, and Python's whitespace.  Outside it (non-ASCII letters and
non-decimal numerics) the embedded `\w` is narrower than Python's. -/
def modelledChar (c : Char) : Bool := c.toNat < 128 || isPyDigit c || isPySpace c

/-! ## Parser -/

/-- Python `_is_empty`: the line is `""` or consists of whitespace only. -/
def _is_empty (line : String) : Bool := line.data.all isPySpace

/-- Python `_is_comment`: first non-whitespace character is a hash mark. -/
def _is_comment (line : String) : Bool :=
  match line.data.dropWhile isPySpace with
  | '#' :: _ => true
  | _ => false

/-- Removes trailing whitespace from a character list. -/
def dropTrailingWs (cs : List Char) : List Char :=
  (cs.reverse.dropWhile isPySpace).reverse

/-- Plain split of a character list at every occurrence of the
two-character separator core, keeping empty parts (never returns an
empty list of parts). -/
def splitBar : List Char → List (List Char)
  | '|' :: '>' :: rest => [] :: splitBar rest
  | c :: rest =>
    match splitBar rest with
    | p :: ps => (c :: p) :: ps
    | [] => [[c]]
  | [] => [[]]

/-- Strips trailing whitespace from every part except the last. -/
def stripTrailingExceptLast : List (List Char) → List (List Char)
  | [] => []
  | [p] => [p]
  | p :: ps => dropTrailingWs p :: stripTrailingExceptLast ps

/-- Strips leading whitespace from every part except the first. -/
def stripLeadingExceptFirst : List (List Char) → List (List Char)
  | [] => []
  | p :: ps => p :: ps.map (fun q => q.dropWhile isPySpace)

/-- Embeds `re.split(SEPARATOR, line)` for the separator pattern
whitespace-star, bar, greater-than, whitespace-star: the leftmost-match
semantics make each separator occurrence greedily swallow the whitespace
run immediately before and after it, which is the same as splitting on
the bare separator and trimming whitespace at the cut points. -/
def splitSep (cs : List Char) : List (List Char) :=
  stripLeadingExceptFirst (stripTrailingExceptLast (splitBar cs))

/-- Python `_parse_init_state`: full match of a word token followed only
by optional trailing whitespace. -/
def _parse_init_state (line : String) : Option State :=
  let w := line.data.takeWhile isWordChar
  let r := line.data.dropWhile isWordChar
  if w = [] then none
  else if r.all isPySpace then some (String.mk w) else none

/-- Python `_parse_state_symbol` on a character list: prefix match of
word token, optional whitespace, plus sign, optional whitespace, one
symbol character; anything after that prefix is ignored. -/
def _parse_state_symbol (cs : List Char) : Option (State × Symbol) :=
  let w := cs.takeWhile isWordChar
  let r := cs.dropWhile isWordChar
  if w = [] then none
  else
    match r.dropWhile isPySpace with
    | y :: r2 =>
      if y = '+' then
        match r2.dropWhile isPySpace with
        | c :: _ => if isSymbolChar c then some (String.mk w, c) else none
        | [] => none
      else none
    | [] => none

/-- Python `_parse_action`: prefix match of one of the three action
letters; anything after the first character is ignored. -/
def _parse_action (cs : List Char) : Option Action :=
  match cs with
  | a :: _ =>
    if a = 'L' then some .LEFT
    else if a = 'R' then some .RIGHT
    else if a = 'N' then some .NONE
    else none
  | [] => none

/-- Python `_parse_transition`: split on the separator, require exactly
three parts (the destructuring raises otherwise, caught as `None`),
parse the two state+symbol parts and the action part. -/
def _parse_transition (line : String) : Option (Condition × Effect) :=
  match splitSep line.data with
  | [p1, p2, p3] =>
    match _parse_state_symbol p1, _parse_state_symbol p2, _parse_action p3 with
    | some (cst, csym), some (nst, nsym), some a =>
      some (⟨cst, csym⟩, ⟨nst, nsym, a⟩)
    | _, _, _ => none
  | _ => none

/-- The `ParsingErrorType` enum. -/
inductive ParsingErrorType where
  | INVALID_SYMBOL
  | INVALID_INIT_STATE
  | INVALID_TRANSITION
  | DUPLICATED_TRANSITION
deriving DecidableEq, Repr

/-- Failure outcomes of the parser entry points: a raised
`ParsingError(error_type, index)`, or an uncaught `IndexError`
(the subscript `numbered_lines[0]` on an empty list). -/
inductive PyError where
  | parsingError (error_type : ParsingErrorType) (index : Nat)
  | indexError
deriving DecidableEq, Repr

/-- The `numbered_lines` comprehension of `parse_machine`, numbering from
`n`: keeps the significant (non-blank, non-comment) lines with their
1-based line numbers. -/
def numberLinesFrom (n : Nat) : List String → List (Nat × String)
  | [] => []
  | l :: ls =>
    if _is_empty l || _is_comment l then numberLinesFrom (n + 1) ls
    else (n, l) :: numberLinesFrom (n + 1) ls

/-- Significant lines of the definition text with 1-based line numbers. -/
def numberedLines (lines : List String) : List (Nat × String) :=
  numberLinesFrom 1 lines

/-- The transition loop of `parse_machine`: parse each remaining
significant line, reject duplicated conditions, insert in order;
the first failure aborts the whole parse. -/
def processTransitions (table : TransitionTable) :
    List (Nat × String) → Except PyError TransitionTable
  | [] => .ok table
  | (i, line) :: rest =>
    match _parse_transition line with
    | none => .error (.parsingError .INVALID_TRANSITION i)
    | some (c, e) =>
      if (tableLookup table c).isSome then
        .error (.parsingError .DUPLICATED_TRANSITION i)
      else processTransitions (table ++ [(c, e)]) rest

/-- The body of `parse_machine` on the already-filtered numbered lines:
read the initial state from the first one (an `IndexError` escapes if
there is none), then process every later line as a transition. -/
def parseMachineFrom : List (Nat × String) → Except PyError Machine
  | [] => .error .indexError
  | (n0, l0) :: rest =>
    match _parse_init_state l0 with
    | none => .error (.parsingError .INVALID_INIT_STATE n0)
    | some s =>
      (processTransitions [] rest).map
        (fun t => { initial_state := s, transition_table := t })

/-- Python `parse_machine`: filter significant lines, then parse the
initial state and the transitions. -/
def parse_machine (lines : List String) : Except PyError Machine :=
  parseMachineFrom (numberedLines lines)

/-- The character loop of `parse_input`, carrying the 0-based index. -/
def parseInputFrom (i : Nat) : List Char → Except PyError (List Symbol)
  | [] => .ok []
  | c :: cs =>
    if isSymbolChar c then (parseInputFrom (i + 1) cs).map (fun l => c :: l)
    else .error (.parsingError .INVALID_SYMBOL i)

/-- Python `parse_input`: validate every character against the symbol
class, reporting the 0-based index of the first illegal one. -/
def parse_input (text : String) : Except PyError (List Symbol) :=
  parseInputFrom 0 text.data

/-! ## Tape

The bi-infinite tape backed by two growable lists.  The constructor
stores the given input list without copying it, so the positive half of
a tape built by `Model.reset` is the very `machine_input` list of the
model (see the header comment). -/

structure Tape where
  _negative : List Symbol
  _positive : List Symbol
deriving DecidableEq, Repr

/-- Python `Tape.__init__`: positive half is the input list itself,
negative half starts empty. -/
def Tape.ofInput (machine_input : List Symbol) : Tape :=
  { _negative := [], _positive := machine_input }

/-- Python `_expand_tape`: pad the chosen half with blanks up to and
including the frame index (no-op when it is already long enough). -/
def expandList (l : List Symbol) (i : Nat) : List Symbol :=
  l ++ List.replicate (i + 1 - l.length) EmptySymbol

/-- The in-place expansion a Python read performs on the tape lists
(`__getitem__` calls `_expand_tape` before indexing). -/
def Tape.expandAt (t : Tape) (index : Int) : Tape :=
  if 0 ≤ index then { t with _positive := expandList t._positive index.toNat }
  else { t with _negative := expandList t._negative (-index - 1).toNat }

/-- The value returned by `Tape.__getitem__` at a signed offset: after
expansion the indexed cell exists and holds either its previous
content or the blank used for padding, which is precisely a default
lookup with the blank symbol. -/
def Tape.read (t : Tape) (index : Int) : Symbol :=
  if 0 ≤ index then t._positive.getD index.toNat EmptySymbol
  else t._negative.getD (-index - 1).toNat EmptySymbol

/-- Python `Tape.__getitem__`: returns the cell content and mutates the
backing lists via expansion. -/
def Tape.get (t : Tape) (index : Int) : Symbol × Tape :=
  (t.read index, t.expandAt index)

/-- Python `Tape.__setitem__`: expand, then overwrite the cell. -/
def Tape.set (t : Tape) (index : Int) (symbol : Symbol) : Tape :=
  if 0 ≤ index then
    { t with _positive := (expandList t._positive index.toNat).set index.toNat symbol }
  else
    { t with _negative := (expandList t._negative (-index - 1).toNat).set (-index - 1).toNat symbol }

/-! ## Execution engine -/

/-- The `SimulationState` enum (the engine phase). -/
inductive SimulationState where
  | IDLE
  | FOUND_TRANSITION
  | CHANGED_STATE
  | MOVED
  | FINISHED
  | INTERRUPTED
deriving DecidableEq, Repr

/-- The `Model` dataclass, restricted to the fields the engine touches.
The Python fields `machine_input` and `tape._positive` are the same
list object throughout the model's lifetime (see the header comment),
so `machine_input` is represented by `tape._positive`.  The timing
fields (`step_interval_in_sec` and its default) are floats that no
engine claim mentions and are omitted. -/
structure Model where
  machine : Machine
  tape : Tape
  machine_state : State
  head_offset : Int
  simulator_state : SimulationState
  transition : Option Transition
  last_move : Option Int
  last_head_offset : Option Int
deriving DecidableEq, Repr

/-- Python `Model.reset`: clear the bookkeeping fields, phase to IDLE,
head to 0, rebuild the tape as `Tape(self.machine_input)` — which
shares the positive list — and restore the initial machine state. -/
def Model.reset (m : Model) : Model :=
  { m with
    last_move := none
    last_head_offset := none
    transition := none
    simulator_state := .IDLE
    head_offset := 0
    tape := Tape.ofInput m.tape._positive
    machine_state := m.machine.initial_state }

/-- Python `Model.__init__`: store the machine and input, then `reset`. -/
def mkModel (machine : Machine) (machine_input : List Symbol) : Model :=
  Model.reset
    { machine := machine
      tape := Tape.ofInput machine_input
      machine_state := machine.initial_state
      head_offset := 0
      simulator_state := .IDLE
      transition := none
      last_move := none
      last_head_offset := none }

/-- Python `Model.move_head`. -/
def Model.move_head (m : Model) (offset : Int) : Model :=
  { m with last_move := some offset, head_offset := m.head_offset + offset }

/-- Python `Controller._step`, the `advance()` operation of the spec:
one engine micro-step, returning whether the simulation should
continue together with the updated model.  In the commit and move
phases the source dereferences `self._model.transition` without a
check (an `AttributeError` would escape if it were `None`); the
`none` branches below return the model unchanged and are proved
unreachable from any reachable model. -/
def step (m : Model) : Bool × Model :=
  match m.simulator_state with
  | .IDLE =>
    let r := m.tape.get m.head_offset
    let m := { m with tape := r.2 }
    let cond : Condition := ⟨m.machine_state, r.1⟩
    match tableLookup m.machine.transition_table cond with
    | none => (true, { m with simulator_state := .FINISHED })
    | some eff =>
      (true, { m with transition := some ⟨cond, eff⟩,
                      simulator_state := .FOUND_TRANSITION })
  | .FOUND_TRANSITION =>
    match m.transition with
    | some tr =>
      (true, { m with machine_state := tr.effect.new_state
                      tape := m.tape.set m.head_offset tr.effect.new_symbol
                      simulator_state := .CHANGED_STATE })
    | none => (true, m)
  | .CHANGED_STATE =>
    match m.transition with
    | some tr =>
      (true, { m.move_head tr.effect.action.value with simulator_state := .MOVED })
    | none => (true, m)
  | .MOVED => (true, { m with simulator_state := .IDLE, transition := none })
  | .FINISHED | .INTERRUPTED => (false, m)

/-- The user-initiated cancellation (`interrupt()` of the spec; the
input loop handler for the quit key): force the phase to INTERRUPTED. -/
def Model.interrupt (m : Model) : Model :=
  { m with simulator_state := .INTERRUPTED }

/-- The operations the presentation layer may drive the engine with. -/
inductive Op where
  | advance
  | interruptOp
  | resetOp
deriving DecidableEq, Repr

/-- Apply one driver operation to the model. -/
def applyOp (m : Model) : Op → Model
  | .advance => (step m).2
  | .interruptOp => m.interrupt
  | .resetOp => m.reset

/-- Apply a sequence of driver operations from left to right. -/
def runOps (m : Model) (ops : List Op) : Model :=
  ops.foldl applyOp m

/-- Iterate `advance()` a fixed number of times. -/
def advanceN : Nat → Model → Model
  | 0, m => m
  | n + 1, m => advanceN n (step m).2

/-- The observation of one `advance()` call: the tuple of phase,
machine state, head offset and symbol under the head at call time. -/
def observe (m : Model) : SimulationState × State × Int × Symbol :=
  (m.simulator_state, m.machine_state, m.head_offset, m.tape.read m.head_offset)

/-! ## Concrete fixtures from the spec's examples -/

/-- Example 1 machine definition text. -/
def exampleLines : List String :=
  ["A\n", "A + 0 |> A + 1 |> R\n", "A + 1 |> A + 0 |> N\n"]

/-- The machine Example 1 parses to. -/
def exampleMachine : Machine :=
  { initial_state := "A"
    transition_table :=
      [(⟨"A", '0'⟩, ⟨"A", '1', .RIGHT⟩), (⟨"A", '1'⟩, ⟨"A", '0', .NONE⟩)] }

/-- Decidable equality of parse results, so concrete parser outcomes can
be settled by evaluation. -/
instance {ε α : Type} [DecidableEq ε] [DecidableEq α] : DecidableEq (Except ε α) := fun
  | .ok a, .ok b =>
    if h : a = b then .isTrue (by rw [h]) else .isFalse (by intro hh; cases hh; exact h rfl)
  | .ok _, .error _ => .isFalse (fun h => Except.noConfusion h)
  | .error _, .ok _ => .isFalse (fun h => Except.noConfusion h)
  | .error e, .error f =>
    if h : e = f then .isTrue (by rw [h]) else .isFalse (by intro hh; cases hh; exact h rfl)

/-! # Claim theorems -/

/-- C7: Example 1.  The three definition lines parse to a machine with
initial state A and exactly two table entries; the input text parses to
the single symbol 0; one logical step (four advance calls, phases
IDLE, FOUND_TRANSITION, CHANGED_STATE, MOVED and back to IDLE) leaves
the machine state A, the head offset 1, and symbol 1 at tape offset 0. -/
theorem C7_example_one :
    parse_machine exampleLines = .ok exampleMachine ∧
    exampleMachine.initial_state = "A" ∧
    exampleMachine.transition_table.length = 2 ∧
    parse_input "0" = .ok ['0'] ∧
    (mkModel exampleMachine ['0']).simulator_state = .IDLE ∧
    (advanceN 1 (mkModel exampleMachine ['0'])).simulator_state = .FOUND_TRANSITION ∧
    (advanceN 2 (mkModel exampleMachine ['0'])).simulator_state = .CHANGED_STATE ∧
    (advanceN 3 (mkModel exampleMachine ['0'])).simulator_state = .MOVED ∧
    (advanceN 4 (mkModel exampleMachine ['0'])).simulator_state = .IDLE ∧
    (advanceN 4 (mkModel exampleMachine ['0'])).machine_state = "A" ∧
    (advanceN 4 (mkModel exampleMachine ['0'])).head_offset = 1 ∧
    (advanceN 4 (mkModel exampleMachine ['0'])).tape.read 0 = '1' :=
  ⟨rfl, rfl, rfl, rfl, rfl, rfl, rfl, rfl, rfl, rfl, rfl, rfl⟩

/-- C1: the code violates run-to-run determinism.  On the Example 1
machine with input 0, the first run's first advance call observes the
tuple (IDLE, A, 0, symbol 0).  The first run halts (its sixth advance
call returns false), yet after reset the next advance call observes
(IDLE, A, 0, symbol 1): `Tape.__init__` aliases the stored
`machine_input` list, so the first run's tape writes leak through
`reset()` into the second run. -/
theorem C1_second_run_differs :
    observe (mkModel exampleMachine ['0']) = (.IDLE, "A", 0, '0') ∧
    (step (advanceN 5 (mkModel exampleMachine ['0']))).1 = false ∧
    observe (Model.reset (advanceN 6 (mkModel exampleMachine ['0']))) = (.IDLE, "A", 0, '1') ∧
    observe (Model.reset (advanceN 6 (mkModel exampleMachine ['0']))) ≠
      observe (mkModel exampleMachine ['0']) :=
  ⟨rfl, rfl, rfl, by decide⟩

/-- C2: `reset()` fails to restore the original tape contents.  After one
logical step on the Example 1 machine with input 0 (which writes symbol
1 at offset 0), reset restores head offset 0, phase IDLE, no recorded
transition and the initial machine state, but the tape cell 0 still
reads symbol 1 instead of the original input symbol 0, because the tape
shares the `machine_input` list it is reseeded from. -/
theorem C2_reset_keeps_mutated_tape :
    (Model.reset (advanceN 4 (mkModel exampleMachine ['0']))).head_offset = 0 ∧
    (Model.reset (advanceN 4 (mkModel exampleMachine ['0']))).simulator_state = .IDLE ∧
    (Model.reset (advanceN 4 (mkModel exampleMachine ['0']))).transition = none ∧
    (Model.reset (advanceN 4 (mkModel exampleMachine ['0']))).machine_state = "A" ∧
    (Model.reset (advanceN 4 (mkModel exampleMachine ['0']))).tape.read 0 = '1' ∧
    ('1' : Symbol) ≠ '0' :=
  ⟨rfl, rfl, rfl, rfl, rfl, by decide⟩

theorem numberLinesFrom_eq_nil (lines : List String) (n : Nat)
    (h : ∀ l ∈ lines, _is_empty l = true ∨ _is_comment l = true) :
    numberLinesFrom n lines = [] := by
  induction lines generalizing n with
  | nil => rfl
  | cons l ls ih =>
    have hl := h l (List.mem_cons_self l ls)
    have : (_is_empty l || _is_comment l) = true := by
      rcases hl with h1 | h1 <;> simp [h1]
    simp only [numberLinesFrom, this, if_pos]
    exact ih _ (fun x hx => h x (List.mem_cons_of_mem l hx))

/-- C4: on a definition whose lines are all blank or comments (the empty
list included), `parse_machine` does not raise a ParsingError at all:
the subscript on the empty filtered list lets an IndexError escape
instead of the INVALID_INIT_STATE error the claim requires. -/
theorem C4_all_blank_gives_index_error (lines : List String)
    (h : ∀ l ∈ lines, _is_empty l = true ∨ _is_comment l = true) :
    parse_machine lines = .error .indexError := by
  unfold parse_machine numberedLines
  rw [numberLinesFrom_eq_nil lines 1 h]
  rfl

/-- Witness for C4 at a concrete comment-and-blank-only definition. -/
theorem C4_witness :
    (∀ l ∈ ["# a comment", "   ", ""], _is_empty l = true ∨ _is_comment l = true) ∧
    parse_machine ["# a comment", "   ", ""] = .error .indexError :=
  ⟨by decide, C4_all_blank_gives_index_error _ (by decide)⟩

/-- C8 counterexample: the claim's return-value clause says advance()
returns true exactly while the phase AFTER the call is not
FINISHED/INTERRUPTED.  On a machine with an empty table the very first
advance call moves the phase to FINISHED and still returns true. -/
theorem C8_counterexample :
    ¬ ((step (mkModel ⟨"A", []⟩ [])).1 = true ↔
        ¬ ((step (mkModel ⟨"A", []⟩ [])).2.simulator_state = .FINISHED ∨
           (step (mkModel ⟨"A", []⟩ [])).2.simulator_state = .INTERRUPTED)) := by
  decide

/-- C8 amended: from IDLE with no applicable transition, advance() moves
the phase directly to FINISHED (that call still returns true); in the
terminal phases advance() returns false and leaves the model completely
unchanged; and advance() returns false exactly when it is CALLED in
phase FINISHED or INTERRUPTED. -/
theorem C8_halting (m : Model) :
    (m.simulator_state = .IDLE →
      tableLookup m.machine.transition_table
        ⟨m.machine_state, m.tape.read m.head_offset⟩ = none →
      (step m).1 = true ∧ (step m).2.simulator_state = .FINISHED) ∧
    ((m.simulator_state = .FINISHED ∨ m.simulator_state = .INTERRUPTED) →
      step m = (false, m)) ∧
    ((step m).1 = false ↔
      (m.simulator_state = .FINISHED ∨ m.simulator_state = .INTERRUPTED)) := by
  refine ⟨?_, ?_, ?_⟩
  · intro hidle hnone
    constructor
    · simp [step, hidle, Tape.get, hnone]
    · simp [step, hidle, Tape.get, hnone]
  · rintro (hfin | hfin) <;> simp [step, hfin]
  · cases hs : m.simulator_state <;>
      simp only [step, hs, Tape.get] <;> try simp
    · cases tableLookup m.machine.transition_table
        ⟨m.machine_state, m.tape.read m.head_offset⟩ <;> simp
    · cases m.transition <;> simp
    · cases m.transition <;> simp

/-- Witness for C8: the halting theorem applied to a concrete machine
with an empty table (first advance call) and to an interrupted model. -/
theorem C8_halting_witness :
    ((step (mkModel ⟨"A", []⟩ [])).1 = true ∧
      (step (mkModel ⟨"A", []⟩ [])).2.simulator_state = .FINISHED) ∧
    step ((mkModel ⟨"A", []⟩ []).interrupt) =
      (false, (mkModel ⟨"A", []⟩ []).interrupt) :=
  ⟨(C8_halting _).1 rfl rfl, (C8_halting _).2.1 (Or.inr rfl)⟩

/-- The inductive invariant behind C10: whenever the phase is
FOUND_TRANSITION or CHANGED_STATE, a transition is recorded. -/
def TransitionRecorded (m : Model) : Prop :=
  (m.simulator_state = .FOUND_TRANSITION ∨ m.simulator_state = .CHANGED_STATE) →
    m.transition ≠ none

theorem transitionRecorded_applyOp (m : Model) (op : Op)
    (h : TransitionRecorded m) : TransitionRecorded (applyOp m op) := by
  cases op with
  | interruptOp => intro hph; simp [applyOp, Model.interrupt] at hph
  | resetOp => intro hph; simp [applyOp, Model.reset] at hph
  | advance =>
    cases hs : m.simulator_state with
    | IDLE =>
      simp only [applyOp, step, hs]
      cases tableLookup m.machine.transition_table
          ⟨m.machine_state, (m.tape.get m.head_offset).1⟩ with
      | none => intro hph; simp at hph
      | some eff => intro _; simp
    | FOUND_TRANSITION =>
      have hne := h (Or.inl hs)
      cases ht : m.transition with
      | none => exact absurd ht hne
      | some tr => simp only [applyOp, step, hs, ht]; intro _; simp
    | CHANGED_STATE =>
      have hne := h (Or.inr hs)
      cases ht : m.transition with
      | none => exact absurd ht hne
      | some tr =>
        simp only [applyOp, step, hs, ht]
        intro hph
        simp [Model.move_head] at hph
    | MOVED =>
      simp only [applyOp, step, hs]
      intro hph; simp at hph
    | FINISHED =>
      have hm : applyOp m Op.advance = m := by simp [applyOp, step, hs]
      rw [hm]; exact h
    | INTERRUPTED =>
      have hm : applyOp m Op.advance = m := by simp [applyOp, step, hs]
      rw [hm]; exact h

theorem transitionRecorded_runOps (m : Model) (ops : List Op)
    (h : TransitionRecorded m) : TransitionRecorded (runOps m ops) := by
  induction ops generalizing m with
  | nil => exact h
  | cons op ops ih =>
    exact ih (applyOp m op) (transitionRecorded_applyOp m op h)

/-- C10: in every model reachable from a fresh model by advance,
interrupt and reset operations, the phases FOUND_TRANSITION and
CHANGED_STATE always carry a recorded transition, so the commit and
move branches of advance never dereference a missing transition. -/
theorem C10_transition_never_missing (machine : Machine) (input : List Symbol)
    (ops : List Op)
    (h : (runOps (mkModel machine input) ops).simulator_state = .FOUND_TRANSITION ∨
         (runOps (mkModel machine input) ops).simulator_state = .CHANGED_STATE) :
    (runOps (mkModel machine input) ops).transition ≠ none := by
  refine transitionRecorded_runOps (mkModel machine input) ops ?_ h
  intro hph
  simp [mkModel, Model.reset] at hph

/-! ## Tape algebra (C9) -/

theorem getD_expandList (l : List Symbol) (i j : Nat) :
    (expandList l i).getD j EmptySymbol = l.getD j EmptySymbol := by
  unfold expandList
  rw [List.getD_eq_getElem?_getD, List.getD_eq_getElem?_getD, List.getElem?_append]
  split
  · rfl
  · rw [List.getElem?_eq_none (l := l) (by omega), List.getElem?_replicate]
    split <;> rfl

theorem length_expandList (l : List Symbol) (i : Nat) :
    i < (expandList l i).length := by
  unfold expandList
  rw [List.length_append, List.length_replicate]
  omega

theorem Tape.set_of_nonneg {i : Int} (hi : 0 ≤ i) (t : Tape) (s : Symbol) :
    t.set i s =
      { t with _positive := (expandList t._positive i.toNat).set i.toNat s } := by
  unfold Tape.set
  exact if_pos hi

theorem Tape.set_of_neg {i : Int} (hi : ¬ 0 ≤ i) (t : Tape) (s : Symbol) :
    t.set i s =
      { t with _negative := (expandList t._negative (-i - 1).toNat).set (-i - 1).toNat s } := by
  unfold Tape.set
  exact if_neg hi

theorem Tape.read_of_nonneg {j : Int} (hj : 0 ≤ j) (t : Tape) :
    t.read j = t._positive.getD j.toNat EmptySymbol := by
  unfold Tape.read
  exact if_pos hj

theorem Tape.read_of_neg {j : Int} (hj : ¬ 0 ≤ j) (t : Tape) :
    t.read j = t._negative.getD (-j - 1).toNat EmptySymbol := by
  unfold Tape.read
  exact if_neg hj

theorem Tape.expandAt_of_nonneg {i : Int} (hi : 0 ≤ i) (t : Tape) :
    t.expandAt i = { t with _positive := expandList t._positive i.toNat } := by
  unfold Tape.expandAt
  exact if_pos hi

theorem Tape.expandAt_of_neg {i : Int} (hi : ¬ 0 ≤ i) (t : Tape) :
    t.expandAt i = { t with _negative := expandList t._negative (-i - 1).toNat } := by
  unfold Tape.expandAt
  exact if_neg hi

theorem Tape.read_expandAt (t : Tape) (i j : Int) :
    (t.expandAt i).read j = t.read j := by
  by_cases hi : 0 ≤ i <;> by_cases hj : 0 ≤ j
  · rw [Tape.expandAt_of_nonneg hi, Tape.read_of_nonneg hj, Tape.read_of_nonneg hj]
    exact getD_expandList _ _ _
  · rw [Tape.expandAt_of_nonneg hi, Tape.read_of_neg hj, Tape.read_of_neg hj]
  · rw [Tape.expandAt_of_neg hi, Tape.read_of_nonneg hj, Tape.read_of_nonneg hj]
  · rw [Tape.expandAt_of_neg hi, Tape.read_of_neg hj, Tape.read_of_neg hj]
    exact getD_expandList _ _ _

theorem Tape.read_set_self (t : Tape) (i : Int) (s : Symbol) :
    (t.set i s).read i = s := by
  by_cases hi : 0 ≤ i
  · rw [Tape.set_of_nonneg hi, Tape.read_of_nonneg hi]
    show ((expandList t._positive i.toNat).set i.toNat s).getD i.toNat EmptySymbol = s
    rw [List.getD_eq_getElem?_getD,
      List.getElem?_set_self (h := length_expandList _ _)]
    rfl
  · rw [Tape.set_of_neg hi, Tape.read_of_neg hi]
    show ((expandList t._negative (-i - 1).toNat).set (-i - 1).toNat s).getD
        (-i - 1).toNat EmptySymbol = s
    rw [List.getD_eq_getElem?_getD,
      List.getElem?_set_self (h := length_expandList _ _)]
    rfl

theorem Tape.read_set_ne (t : Tape) (i j : Int) (s : Symbol) (h : i ≠ j) :
    (t.set i s).read j = t.read j := by
  by_cases hi : 0 ≤ i <;> by_cases hj : 0 ≤ j
  · rw [Tape.set_of_nonneg hi, Tape.read_of_nonneg hj, Tape.read_of_nonneg hj]
    show ((expandList t._positive i.toNat).set i.toNat s).getD j.toNat EmptySymbol =
      t._positive.getD j.toNat EmptySymbol
    rw [List.getD_eq_getElem?_getD, List.getElem?_set_ne (by omega),
      ← List.getD_eq_getElem?_getD, getD_expandList]
  · rw [Tape.set_of_nonneg hi, Tape.read_of_neg hj, Tape.read_of_neg hj]
  · rw [Tape.set_of_neg hi, Tape.read_of_nonneg hj, Tape.read_of_nonneg hj]
  · rw [Tape.set_of_neg hi, Tape.read_of_neg hj, Tape.read_of_neg hj]
    show ((expandList t._negative (-i - 1).toNat).set (-i - 1).toNat s).getD
        (-j - 1).toNat EmptySymbol = t._negative.getD (-j - 1).toNat EmptySymbol
    rw [List.getD_eq_getElem?_getD, List.getElem?_set_ne (by omega),
      ← List.getD_eq_getElem?_getD, getD_expandList]

theorem Tape.read_ofInput_out (input : List Symbol) (j : Int)
    (h : j < 0 ∨ (input.length : Int) ≤ j) :
    (Tape.ofInput input).read j = EmptySymbol := by
  rcases h with h | h
  · rw [Tape.read_of_neg (by omega)]
    rfl
  · rw [Tape.read_of_nonneg (by omega)]
    show input.getD j.toNat EmptySymbol = EmptySymbol
    rw [List.getD_eq_getElem?_getD, List.getElem?_eq_none (by omega)]
    rfl

/-- The tape operations a client can perform: an indexed write, or an
indexed read (which also mutates the backing lists by expansion). -/
inductive TapeOp where
  | setOp (index : Int) (symbol : Symbol)
  | getOp (index : Int)
deriving DecidableEq, Repr

/-- The offsets an operation sequence ever writes to. -/
def setIndices : List TapeOp → List Int :=
  List.filterMap fun op =>
    match op with
    | .setOp i _ => some i
    | .getOp _ => none

/-- Apply one tape operation, keeping the mutated tape. -/
def applyTapeOp (t : Tape) : TapeOp → Tape
  | .setOp i s => t.set i s
  | .getOp i => t.expandAt i

/-- Apply a sequence of tape operations from left to right. -/
def runTapeOps (t : Tape) (ops : List TapeOp) : Tape :=
  ops.foldl applyTapeOp t

theorem read_runTapeOps_not_written (j : Int) (ops : List TapeOp) (t : Tape)
    (hinit : t.read j = EmptySymbol) (hnw : j ∉ setIndices ops) :
    (runTapeOps t ops).read j = EmptySymbol := by
  induction ops generalizing t with
  | nil => exact hinit
  | cons op ops ih =>
    cases op with
    | setOp i s =>
      have hij : i ≠ j := by
        intro hij
        exact hnw (by simp [setIndices, List.filterMap_cons, hij])
      refine ih (t.set i s) ?_ ?_
      · rw [Tape.read_set_ne t i j s hij]; exact hinit
      · intro hmem
        exact hnw (by simp only [setIndices, List.filterMap_cons]; exact List.mem_cons_of_mem _ hmem)
    | getOp i =>
      refine ih (t.expandAt i) ?_ ?_
      · rw [Tape.read_expandAt]; exact hinit
      · intro hmem
        exact hnw (by simp only [setIndices, List.filterMap_cons]; exact hmem)

/-- C9: on any tape, a write at any signed offset is immediately read
back, and an offset that was never written — neither seeded by the
initial input nor the target of a set — reads as the blank symbol, no
matter what other offsets were written or read in between. -/
theorem C9_tape_roundtrip (input : List Symbol) (ops : List TapeOp) (i j : Int)
    (s : Symbol) (hnw : j ∉ setIndices ops)
    (hout : j < 0 ∨ (input.length : Int) ≤ j) :
    (∀ t : Tape, (t.set i s).read i = s) ∧
    (runTapeOps (Tape.ofInput input) ops).read j = EmptySymbol :=
  ⟨fun t => Tape.read_set_self t i s,
   read_runTapeOps_not_written j ops (Tape.ofInput input)
     (Tape.read_ofInput_out input j hout) hnw⟩

/-- Witness for C9 at concrete offsets: a write at offset -3 reads back,
and offset 5 — outside the one-cell input and never written by the
operation sequence — reads blank after a write at 0 and a read at -2. -/
theorem C9_witness :
    ((Tape.ofInput []).set (-3) '*').read (-3) = '*' ∧
    (runTapeOps (Tape.ofInput ['0'])
      [TapeOp.setOp 0 '1', TapeOp.getOp (-2)]).read 5 = EmptySymbol :=
  ⟨(C9_tape_roundtrip ['0'] [TapeOp.setOp 0 '1', TapeOp.getOp (-2)] (-3) 5 '*'
      (by decide) (by decide)).1 (Tape.ofInput []),
   (C9_tape_roundtrip ['0'] [TapeOp.setOp 0 '1', TapeOp.getOp (-2)] (-3) 5 '*'
      (by decide) (by decide)).2⟩

/-! ## Transition-loop bookkeeping (C5 and C3) -/

/-- The conditions already inserted in a table. -/
def tableKeys (t : TransitionTable) : List Condition := t.map Prod.fst

/-- The condition/effect pairs a list of numbered lines parses to. -/
def parsedTransitions (ts : List (Nat × String)) : TransitionTable :=
  ts.filterMap (fun p => _parse_transition p.2)

/-- The conditions a list of numbered lines parses to. -/
def parsedConditions (ts : List (Nat × String)) : List Condition :=
  tableKeys (parsedTransitions ts)

theorem tableLookup_isSome_iff (t : TransitionTable) (c : Condition) :
    (tableLookup t c).isSome = true ↔ c ∈ tableKeys t := by
  induction t with
  | nil => simp [tableLookup, tableKeys]
  | cons p rest ih =>
    obtain ⟨c₁, e⟩ := p
    simp only [tableKeys, List.map_cons, List.mem_cons]
    by_cases hc : c₁ = c
    · subst hc
      simp [tableLookup]
    · simp only [tableLookup, hc, ite_false]
      rw [ih]
      simp only [tableKeys]
      constructor
      · exact fun h => Or.inr h
      · rintro (h1 | h1)
        · exact absurd h1.symm hc
        · exact h1

/-- Processing a clean block of transition lines (each parses, and no
condition repeats) just accumulates their parsed pairs into the table
and continues with the remaining lines. -/
theorem processTransitions_reaches (ts : List (Nat × String)) (rest : List (Nat × String))
    (tbl : TransitionTable)
    (hparse : ∀ p ∈ ts, (_parse_transition p.2).isSome = true)
    (hnodup : (tableKeys tbl ++ parsedConditions ts).Nodup) :
    processTransitions tbl (ts ++ rest) =
      processTransitions (tbl ++ parsedTransitions ts) rest := by
  induction ts generalizing tbl with
  | nil => simp [parsedTransitions]
  | cons p ts ih =>
    obtain ⟨i, line⟩ := p
    have hp := hparse (i, line) (List.mem_cons_self _ _)
    obtain ⟨⟨c, e⟩, hce⟩ := Option.isSome_iff_exists.mp hp
    have hpt : parsedTransitions ((i, line) :: ts) = (c, e) :: parsedTransitions ts := by
      simp [parsedTransitions, List.filterMap_cons, hce]
    have hpc : parsedConditions ((i, line) :: ts) = c :: parsedConditions ts := by
      simp [parsedConditions, hpt, tableKeys]
    rw [hpc] at hnodup
    have hcnot : c ∉ tableKeys tbl := by
      intro hmem
      rcases (List.nodup_append.mp hnodup) with ⟨_, _, hdisj⟩
      exact hdisj hmem (List.mem_cons_self _ _)
    have hlook : (tableLookup tbl c).isSome = false := by
      rcases hb : (tableLookup tbl c).isSome with _ | _
      · rfl
      · exact absurd ((tableLookup_isSome_iff tbl c).mp hb) hcnot
    have hstep : processTransitions tbl (((i, line) :: ts) ++ rest) =
        processTransitions (tbl ++ [(c, e)]) (ts ++ rest) := by
      simp [processTransitions, hce, hlook]
    rw [hstep, ih (tbl ++ [(c, e)])
      (fun p hp₂ => hparse p (List.mem_cons_of_mem _ hp₂))
      (by
        have hk : tableKeys (tbl ++ [(c, e)]) = tableKeys tbl ++ [c] := by
          simp [tableKeys]
        rw [hk, List.append_assoc]
        simpa using hnodup)]
    rw [hpt, List.append_assoc]
    rfl

/-- C5: with a well-formed header and a block of well-formed transition
lines with pairwise distinct conditions, a later line whose condition
repeats one of theirs makes parse_machine fail with
DUPLICATED_TRANSITION at that duplicate line's 1-based number — no
matter what lines follow it, so nothing after the duplicate is
inspected and the first entry is never overwritten. -/
theorem C5_duplicated_transition (lines : List String) (n0 j : Nat) (l0 dup : String)
    (s : State) (ts rest : List (Nat × String)) (c : Condition) (e : Effect)
    (hnum : numberedLines lines = (n0, l0) :: (ts ++ (j, dup) :: rest))
    (hinit : _parse_init_state l0 = some s)
    (hparse : ∀ p ∈ ts, (_parse_transition p.2).isSome = true)
    (hnodup : (parsedConditions ts).Nodup)
    (hdup : _parse_transition dup = some (c, e))
    (hmem : c ∈ parsedConditions ts) :
    parse_machine lines = .error (.parsingError .DUPLICATED_TRANSITION j) := by
  unfold parse_machine
  rw [hnum]
  simp only [parseMachineFrom, hinit]
  rw [processTransitions_reaches ts ((j, dup) :: rest) [] hparse
    (by simpa [tableKeys] using hnodup)]
  have hlook : (tableLookup (parsedTransitions ts) c).isSome = true :=
    (tableLookup_isSome_iff _ c).mpr hmem
  simp only [processTransitions, hdup, List.nil_append, hlook, ite_true]
  rfl

/-- Witness for C5: Example 2 — appending a fourth line with the same
condition as line 2 to the Example 1 definition fails with
DUPLICATED_TRANSITION at line 4. -/
theorem C5_witness :
    parse_machine (exampleLines ++ ["A + 0 |> A + 1 |> L\n"]) =
      .error (.parsingError .DUPLICATED_TRANSITION 4) :=
  C5_duplicated_transition _ 1 4 "A\n" "A + 0 |> A + 1 |> L\n" "A"
    [(2, "A + 0 |> A + 1 |> R\n"), (3, "A + 1 |> A + 0 |> N\n")] []
    ⟨"A", '0'⟩ ⟨"A", '1', .LEFT⟩ rfl rfl (by decide) (by decide) rfl (by decide)

/-! ## Input parsing (C6) -/

/-- The symbol alphabet exactly as the original claim words it:
underscore, asterisk, or an ASCII digit between 0 and 9. -/
def specSymbolAlphabet (c : Char) : Prop :=
  c = '_' ∨ c = '*' ∨ ('0' ≤ c ∧ c ≤ '9')

instance (c : Char) : Decidable (specSymbolAlphabet c) := by
  unfold specSymbolAlphabet
  infer_instance

/-- The symbol alphabet the program actually accepts: underscore,
asterisk, or any Unicode decimal digit (the class `[_*\d]`). -/
def pySymbolAlphabet (c : Char) : Prop :=
  c = '_' ∨ c = '*' ∨ isPyDigit c = true

instance (c : Char) : Decidable (pySymbolAlphabet c) := by
  unfold pySymbolAlphabet
  infer_instance

theorem isSymbolChar_iff (c : Char) :
    isSymbolChar c = true ↔ pySymbolAlphabet c := by
  unfold isSymbolChar pySymbolAlphabet
  rw [Bool.or_eq_true, Bool.or_eq_true, decide_eq_true_eq, decide_eq_true_eq,
    or_assoc]

theorem specAlphabet_sub_pyAlphabet (c : Char) (h : specSymbolAlphabet c) :
    pySymbolAlphabet c := by
  rcases h with h | h | ⟨h1, h2⟩
  · exact Or.inl h
  · exact Or.inr (Or.inl h)
  · refine Or.inr (Or.inr ?_)
    rw [Char.le_def] at h1 h2
    have n1 : 48 ≤ c.toNat := h1
    have n2 : c.toNat ≤ 57 := h2
    simp only [isPyDigit, ndRanges, List.any_cons, List.any_nil,
      Bool.or_eq_true, Bool.and_eq_true, decide_eq_true_eq]
    omega

theorem parseInputFrom_ok (cs : List Char) (i : Nat)
    (h : ∀ c ∈ cs, isSymbolChar c = true) : parseInputFrom i cs = .ok cs := by
  induction cs generalizing i with
  | nil => rfl
  | cons c cs ih =>
    have hc := h c (List.mem_cons_self _ _)
    simp only [parseInputFrom, hc, ite_true,
      ih (i + 1) (fun x hx => h x (List.mem_cons_of_mem _ hx))]
    rfl

theorem parseInputFrom_ok_inv (cs l : List Char) (i : Nat)
    (h : parseInputFrom i cs = .ok l) :
    l = cs ∧ ∀ c ∈ cs, isSymbolChar c = true := by
  induction cs generalizing i l with
  | nil =>
    simp only [parseInputFrom] at h
    cases h
    exact ⟨rfl, by simp⟩
  | cons c cs ih =>
    by_cases hc : isSymbolChar c = true
    · simp only [parseInputFrom, hc, ite_true] at h
      cases hrec : parseInputFrom (i + 1) cs with
      | error e => rw [hrec] at h; exact absurd h (by simp [Except.map])
      | ok l₂ =>
        rw [hrec] at h
        simp only [Except.map] at h
        cases h
        obtain ⟨hl, hall⟩ := ih l₂ (i + 1) hrec
        subst hl
        refine ⟨rfl, ?_⟩
        intro x hx
        rcases List.mem_cons.mp hx with h1 | h1
        · rw [h1]; exact hc
        · exact hall x h1
    · simp only [parseInputFrom, hc, ite_false] at h
      exact absurd h (by simp)

theorem parseInputFrom_err (cs : List Char) (i j : Nat) (c₀ : Char)
    (hgood : ∀ c ∈ cs.take j, isSymbolChar c = true)
    (hj : cs[j]? = some c₀) (hbad : isSymbolChar c₀ = false) :
    parseInputFrom i cs = .error (.parsingError .INVALID_SYMBOL (i + j)) := by
  induction cs generalizing i j with
  | nil => simp at hj
  | cons c cs ih =>
    cases j with
    | zero =>
      simp only [List.getElem?_cons_zero, Option.some_inj] at hj
      subst hj
      simp [parseInputFrom, hbad]
    | succ j =>
      have hc : isSymbolChar c = true :=
        hgood c (by simp [List.take_succ_cons])
      have hrest : ∀ x ∈ cs.take j, isSymbolChar x = true := by
        intro x hx
        exact hgood x (by simp [List.take_succ_cons, hx])
      simp only [List.getElem?_cons_succ] at hj
      simp only [parseInputFrom, hc, ite_true, ih (i + 1) j hrest hj]
      have : i + 1 + j = i + (j + 1) := by omega
      rw [this]
      rfl

/-- C6 counterexample: the claim restricts the accepted alphabet to
underscore, asterisk and the ASCII digits 0-9, but the symbol class is
built from Python's Unicode-aware backslash-d: parse_input succeeds on
the Arabic-Indic digit three (U+0663) although that character is
outside the claim's alphabet, so the claimed if-and-only-if is false. -/
theorem C6_unicode_digit_accepted :
    parse_input "٣" = .ok ['٣'] ∧ ¬ specSymbolAlphabet '٣' :=
  ⟨rfl, by decide⟩

/-- C6 amended: parse_input succeeds exactly when every character of
the input belongs to the program's symbol alphabet — underscore,
asterisk, or any Unicode decimal digit, a strict superset of the
original claim's underscore/asterisk/0-9; on success it returns the
input's characters as symbols in order (hence with the input's length),
and on the first character outside the alphabet it fails with
INVALID_SYMBOL carrying that character's 0-based index. -/
theorem C6_parse_input (text : String) :
    (parse_input text = .ok text.data ↔ ∀ c ∈ text.data, pySymbolAlphabet c) ∧
    (∀ l, parse_input text = .ok l → l = text.data) ∧
    (∀ j c₀, (∀ c ∈ text.data.take j, pySymbolAlphabet c) →
      text.data[j]? = some c₀ → ¬ pySymbolAlphabet c₀ →
      parse_input text = .error (.parsingError .INVALID_SYMBOL j)) ∧
    (∀ c : Char, specSymbolAlphabet c → pySymbolAlphabet c) := by
  refine ⟨⟨fun h => ?_, fun h => ?_⟩, fun l h => ?_, fun j c₀ hgood hj hbad => ?_,
    specAlphabet_sub_pyAlphabet⟩
  · intro c hc
    exact (isSymbolChar_iff c).mp ((parseInputFrom_ok_inv text.data text.data 0 h).2 c hc)
  · exact parseInputFrom_ok text.data 0 (fun c hc => (isSymbolChar_iff c).mpr (h c hc))
  · exact (parseInputFrom_ok_inv text.data l 0 h).1
  · have hbad₂ : isSymbolChar c₀ = false := by
      rcases hb : isSymbolChar c₀ with _ | _
      · rfl
      · exact absurd ((isSymbolChar_iff c₀).mp hb) hbad
    have := parseInputFrom_err text.data 0 j c₀
      (fun c hc => (isSymbolChar_iff c).mpr (hgood c hc)) hj hbad₂
    simpa using this

/-- Witness for C6: Example 3 — the input 01x fails with INVALID_SYMBOL
at index 2 — a fully legal ASCII input parses to its character
sequence, and so does a Unicode decimal digit. -/
theorem C6_witness :
    parse_input "01x" = .error (.parsingError .INVALID_SYMBOL 2) ∧
    parse_input "0*_" = .ok ['0', '*', '_'] ∧
    parse_input "0٣" = .ok ['0', '٣'] :=
  ⟨(C6_parse_input "01x").2.2.1 2 'x' (by decide) rfl (by decide),
   (C6_parse_input "0*_").1.mpr (by decide),
   (C6_parse_input "0٣").1.mpr (by decide)⟩

/-! ## Transition-line grammar (C3) -/

theorem takeWhile_append_all (p : Char → Bool) (xs ys : List Char)
    (h : ∀ x ∈ xs, p x = true) :
    (xs ++ ys).takeWhile p = xs ++ ys.takeWhile p := by
  induction xs with
  | nil => simp
  | cons a xs ih =>
    have ha := h a (List.mem_cons_self _ _)
    simp only [List.cons_append, List.takeWhile_cons_of_pos ha,
      ih (fun x hx => h x (List.mem_cons_of_mem _ hx))]

theorem dropWhile_append_all (p : Char → Bool) (xs ys : List Char)
    (h : ∀ x ∈ xs, p x = true) :
    (xs ++ ys).dropWhile p = ys.dropWhile p := by
  induction xs with
  | nil => simp
  | cons a xs ih =>
    have ha := h a (List.mem_cons_self _ _)
    simp only [List.cons_append, List.dropWhile_cons_of_pos ha,
      ih (fun x hx => h x (List.mem_cons_of_mem _ hx))]

theorem isPySpace_mem (c : Char) (h : isPySpace c = true) :
    c ∈ pythonWhitespace := by
  simpa [isPySpace] using h

theorem ws_not_wordChar (c : Char) (h : isPySpace c = true) :
    isWordChar c = false := by
  have hm := isPySpace_mem c h
  fin_cases hm <;> decide

theorem symbolChar_not_ws (c : Char) (h : isSymbolChar c = true) :
    isPySpace c = false := by
  rcases hw : isPySpace c with _ | _
  · rfl
  · exfalso
    have hm := isPySpace_mem c hw
    fin_cases hm <;> exact absurd h (by decide)

/-- The spec's reading of a condition or new-state part: it begins with
a word token, optional whitespace, a plus sign, optional whitespace and
one symbol character; anything after that prefix is unconstrained. -/
def beginsWithStateSymbol (p : List Char) : Prop :=
  ∃ w ws1 ws2 c r, p = w ++ ws1 ++ '+' :: (ws2 ++ c :: r) ∧ w ≠ [] ∧
    (∀ x ∈ w, isWordChar x = true) ∧
    (∀ x ∈ ws1, isPySpace x = true) ∧
    (∀ x ∈ ws2, isPySpace x = true) ∧
    isSymbolChar c = true

/-- The spec's reading of the action part: it begins with one of the
three action letters; anything after that letter is unconstrained. -/
def beginsWithActionCode (p : List Char) : Prop :=
  ∃ a r, p = a :: r ∧ (a = 'L' ∨ a = 'R' ∨ a = 'N')

/-- The amended acceptance condition for one transition line: the split
on the separator yields exactly three parts, the first two begin with
token plus symbol, and the third begins with an action letter. -/
def transitionLineShape (line : String) : Prop :=
  ∃ p1 p2 p3, splitSep line.data = [p1, p2, p3] ∧
    beginsWithStateSymbol p1 ∧ beginsWithStateSymbol p2 ∧
    beginsWithActionCode p3

theorem parse_state_symbol_isSome_iff (p : List Char) :
    (_parse_state_symbol p).isSome = true ↔ beginsWithStateSymbol p := by
  constructor
  · intro h
    by_cases hw : p.takeWhile isWordChar = []
    · have hnone : _parse_state_symbol p = none := by
        simp [_parse_state_symbol, hw]
      rw [hnone] at h; simp at h
    · cases hr1 : (p.dropWhile isWordChar).dropWhile isPySpace with
      | nil =>
        have hnone : _parse_state_symbol p = none := by
          simp [_parse_state_symbol, hw, hr1]
        rw [hnone] at h; simp at h
      | cons y r2 =>
        by_cases hy : y = '+'
        · subst hy
          cases hr3 : r2.dropWhile isPySpace with
          | nil =>
            have hnone : _parse_state_symbol p = none := by
              simp [_parse_state_symbol, hw, hr1, hr3]
            rw [hnone] at h; simp at h
          | cons c r3 =>
            by_cases hc : isSymbolChar c = true
            · refine ⟨p.takeWhile isWordChar,
                (p.dropWhile isWordChar).takeWhile isPySpace,
                r2.takeWhile isPySpace, c, r3, ?_, hw, ?_, ?_, ?_, hc⟩
              · have e2 : p.dropWhile isWordChar =
                    (p.dropWhile isWordChar).takeWhile isPySpace ++ ('+' :: r2) := by
                  conv_lhs => rw [← List.takeWhile_append_dropWhile
                    (p := isPySpace) (l := p.dropWhile isWordChar)]
                  rw [hr1]
                have e3 : r2 = r2.takeWhile isPySpace ++ (c :: r3) := by
                  conv_lhs => rw [← List.takeWhile_append_dropWhile
                    (p := isPySpace) (l := r2)]
                  rw [hr3]
                conv_lhs => rw [← List.takeWhile_append_dropWhile (p := isWordChar) (l := p),
                  e2, e3]
                rw [List.append_assoc]
              · exact fun x hx => List.mem_takeWhile_imp hx
              · exact fun x hx => List.mem_takeWhile_imp hx
              · exact fun x hx => List.mem_takeWhile_imp hx
            · have hnone : _parse_state_symbol p = none := by
                simp [_parse_state_symbol, hw, hr1, hr3, hc]
              rw [hnone] at h; simp at h
        · have hnone : _parse_state_symbol p = none := by
            simp [_parse_state_symbol, hw, hr1, hy]
          rw [hnone] at h; simp at h
  · rintro ⟨w, ws1, ws2, c, r, rfl, hw, hword, hws1, hws2, hc⟩
    have htake : ((w ++ (ws1 ++ '+' :: (ws2 ++ c :: r)))).takeWhile isWordChar = w := by
      rw [takeWhile_append_all isWordChar w _ hword]
      have : (ws1 ++ '+' :: (ws2 ++ c :: r)).takeWhile isWordChar = [] := by
        cases ws1 with
        | nil =>
          simp only [List.nil_append]
          exact List.takeWhile_cons_of_neg (by decide)
        | cons a ws1 =>
          have ha := hws1 a (List.mem_cons_self _ _)
          simp only [List.cons_append]
          exact List.takeWhile_cons_of_neg (by simp [ws_not_wordChar a ha])
      rw [this, List.append_nil]
    have hdrop : ((w ++ (ws1 ++ '+' :: (ws2 ++ c :: r)))).dropWhile isWordChar =
        ws1 ++ '+' :: (ws2 ++ c :: r) := by
      rw [dropWhile_append_all isWordChar w _ hword]
      cases ws1 with
      | nil =>
        simp only [List.nil_append]
        exact List.dropWhile_cons_of_neg (by decide)
      | cons a ws1 =>
        have ha := hws1 a (List.mem_cons_self _ _)
        simp only [List.cons_append]
        exact List.dropWhile_cons_of_neg (by simp [ws_not_wordChar a ha])
    have hr1 : ((w ++ (ws1 ++ '+' :: (ws2 ++ c :: r))).dropWhile isWordChar).dropWhile
        isPySpace = '+' :: (ws2 ++ c :: r) := by
      rw [hdrop, dropWhile_append_all isPySpace ws1 _ hws1]
      exact List.dropWhile_cons_of_neg (by decide)
    have hr3 : (ws2 ++ c :: r).dropWhile isPySpace = c :: r := by
      rw [dropWhile_append_all isPySpace ws2 _ hws2]
      exact List.dropWhile_cons_of_neg (by simp [symbolChar_not_ws c hc])
    simp [_parse_state_symbol, htake, hr1, hr3, hw, hc]

theorem parse_action_isSome_iff (p : List Char) :
    (_parse_action p).isSome = true ↔ beginsWithActionCode p := by
  constructor
  · intro h
    cases p with
    | nil => simp [_parse_action] at h
    | cons a r =>
      by_cases hL : a = 'L'
      · exact ⟨a, r, rfl, Or.inl hL⟩
      · by_cases hR : a = 'R'
        · exact ⟨a, r, rfl, Or.inr (Or.inl hR)⟩
        · by_cases hN : a = 'N'
          · exact ⟨a, r, rfl, Or.inr (Or.inr hN)⟩
          · simp [_parse_action, hL, hR, hN] at h
  · rintro ⟨a, r, rfl, hL | hR | hN⟩
    · subst hL; rfl
    · subst hR; rfl
    · subst hN; rfl

theorem parse_transition_isSome_parts (line : String) :
    (_parse_transition line).isSome = true ↔
      ∃ p1 p2 p3, splitSep line.data = [p1, p2, p3] ∧
        (_parse_state_symbol p1).isSome = true ∧
        (_parse_state_symbol p2).isSome = true ∧
        (_parse_action p3).isSome = true := by
  constructor
  · intro h
    rcases hs : splitSep line.data with _ | ⟨p1, _ | ⟨p2, _ | ⟨p3, _ | ⟨p4, ps⟩⟩⟩⟩
    · have : _parse_transition line = none := by simp [_parse_transition, hs]
      rw [this] at h; simp at h
    · have : _parse_transition line = none := by simp [_parse_transition, hs]
      rw [this] at h; simp at h
    · have : _parse_transition line = none := by simp [_parse_transition, hs]
      rw [this] at h; simp at h
    · refine ⟨p1, p2, p3, rfl, ?_⟩
      cases h1 : _parse_state_symbol p1 with
      | none =>
        have : _parse_transition line = none := by simp [_parse_transition, hs, h1]
        rw [this] at h; simp at h
      | some v1 =>
        obtain ⟨s1, y1⟩ := v1
        cases h2 : _parse_state_symbol p2 with
        | none =>
          have : _parse_transition line = none := by simp [_parse_transition, hs, h1, h2]
          rw [this] at h; simp at h
        | some v2 =>
          obtain ⟨s2, y2⟩ := v2
          cases h3 : _parse_action p3 with
          | none =>
            have : _parse_transition line = none := by simp [_parse_transition, hs, h1, h2, h3]
            rw [this] at h; simp at h
          | some a => simp [h1, h2, h3]
    · have : _parse_transition line = none := by simp [_parse_transition, hs]
      rw [this] at h; simp at h
  · rintro ⟨p1, p2, p3, hs, h1, h2, h3⟩
    obtain ⟨⟨s1, y1⟩, hv1⟩ := Option.isSome_iff_exists.mp h1
    obtain ⟨⟨s2, y2⟩, hv2⟩ := Option.isSome_iff_exists.mp h2
    obtain ⟨a, hv3⟩ := Option.isSome_iff_exists.mp h3
    simp [_parse_transition, hs, hv1, hv2, hv3]

/-- C3 amended: a transition line is accepted exactly when splitting it
on the separator yields three parts whose first two BEGIN with
token-plus-symbol (whitespace around the plus sign ignored) and whose
third BEGINS with L, R or N — characters after those prefixes are
ignored rather than rejected; and when a significant line after a
well-formed header fails this shape (the earlier transition lines being
well formed and duplicate-free), parse_machine fails with
INVALID_TRANSITION carrying that line's 1-based number.  The lines the
acceptance clauses quantify over are restricted to `modelledChar`
characters (ASCII, Unicode decimal digits, Python whitespace): on that
fragment the embedded classes coincide with the source's Unicode-aware
`\w`, `\d` and `\s`, while for other characters (non-ASCII letters and
non-decimal numerics) the embedded `\w` is narrower than Python's. -/
theorem C3_transition_grammar :
    (∀ line : String, (∀ c ∈ line.data, modelledChar c = true) →
      ((_parse_transition line).isSome = true ↔ transitionLineShape line)) ∧
    (∀ (lines : List String) (n0 j : Nat) (l0 bad : String) (s : State)
        (ts rest : List (Nat × String)),
      numberedLines lines = (n0, l0) :: (ts ++ (j, bad) :: rest) →
      _parse_init_state l0 = some s →
      (∀ p ∈ ts, (_parse_transition p.2).isSome = true) →
      (parsedConditions ts).Nodup →
      (∀ c ∈ bad.data, modelledChar c = true) →
      _parse_transition bad = none →
      parse_machine lines = .error (.parsingError .INVALID_TRANSITION j)) := by
  constructor
  · intro line _
    rw [parse_transition_isSome_parts]
    unfold transitionLineShape
    refine exists_congr fun p1 => exists_congr fun p2 => exists_congr fun p3 => ?_
    rw [parse_state_symbol_isSome_iff, parse_state_symbol_isSome_iff,
      parse_action_isSome_iff]
  · intro lines n0 j l0 bad s ts rest hnum hinit hparse hnodup _ hbad
    unfold parse_machine
    rw [hnum]
    simp only [parseMachineFrom, hinit]
    rw [processTransitions_reaches ts ((j, bad) :: rest) [] hparse
      (by simpa [tableKeys] using hnodup)]
    simp only [processTransitions, hbad]
    rfl

/-- Witness for C3: a fully well-formed line satisfies the shape, and a
line whose condition part lacks its symbol makes parse_machine fail
with INVALID_TRANSITION at line 2; both lines lie in the modelled
character fragment. -/
theorem C3_witness :
    transitionLineShape "A + 0 |> A + 1 |> R\n" ∧
    parse_machine ["A\n", "A + |> B + 1 |> R\n"] =
      .error (.parsingError .INVALID_TRANSITION 2) :=
  ⟨(C3_transition_grammar.1 "A + 0 |> A + 1 |> R\n" (by decide)).mp rfl,
   C3_transition_grammar.2 ["A\n", "A + |> B + 1 |> R\n"] 1 2 "A\n"
     "A + |> B + 1 |> R\n" "A" [] [] rfl rfl (by simp) (by decide) (by decide) rfl⟩

/-- C3 counterexample: the claim rejects any transition line carrying
extra characters, but the parser matches only prefixes: this line has
trailing garbage in the condition part and after the action code, yet
parse_machine accepts it instead of raising INVALID_TRANSITION at
line 2. -/
theorem C3_counterexample :
    parse_machine ["A", "A + 0 zz |> B + 1 |> Rxx"] =
      .ok { initial_state := "A",
            transition_table := [(⟨"A", '0'⟩, ⟨"B", '1', .RIGHT⟩)] } ∧
    parse_machine ["A", "A + 0 zz |> B + 1 |> Rxx"] ≠
      .error (.parsingError .INVALID_TRANSITION 2) :=
  ⟨rfl, by decide⟩

/-- Witness for C10: after one advance call of the Example 1 model the
phase is FOUND_TRANSITION and a transition is recorded. -/
theorem C10_witness :
    ((runOps (mkModel exampleMachine ['0']) [Op.advance]).simulator_state =
        .FOUND_TRANSITION ∨
      (runOps (mkModel exampleMachine ['0']) [Op.advance]).simulator_state =
        .CHANGED_STATE) ∧
    (runOps (mkModel exampleMachine ['0']) [Op.advance]).transition ≠ none :=
  ⟨Or.inl rfl, C10_transition_never_missing exampleMachine ['0'] [Op.advance] (Or.inl rfl)⟩

end Yatumas
